import Mathlib

/-!
Verification of the relevance-scoring and trend-aggregation engine of the
ai-paper-daily repository (`src/arxiv_client.py`, `src/trend_analyzer.py`,
`src/main.py`).

Modelling conventions:

* Scores are represented as integers counting hundredths of a score point
  (so the Python weight `3.0` becomes `300`, `0.5` becomes `50`, and the
  threshold `5.0` becomes `500`).  Every weight in the source is a multiple
  of `0.5`, sums of such values are exact in IEEE doubles, and Python's
  `round(score, 2)` rounds to a whole number of hundredths, hence is the
  identity on every reachable score.  Working in hundredths therefore loses
  nothing and keeps all arithmetic kernel-computable.
* Lower-casing is modelled with `Char.toLower` applied characterwise, which
  agrees with Python `str.lower()` on the ASCII texts handled here.
* Python `datetime.now()` is modelled by the integer day number of the
  current calendar day (`days_old = (datetime.now() - pub_date).days` equals
  the difference of calendar day numbers, because `pub_date` is a midnight
  instant and the fractional part of the difference is nonnegative and
  below one day).  Calendar day numbers are computed by the standard
  proleptic-Gregorian civil-day formula.
* `strptime(paper["published"][:10], "%Y-%m-%d")` is modelled by a parser
  for the zero-padded `YYYY-MM-DD` layout produced by the arXiv feed;
  failures yield `none`, matching the silent `except: pass`.
-/

set_option maxRecDepth 4000

namespace PaperDaily

/-! ### Generic string helpers -/

/-- Characterwise lower-casing of a character list (Python `str.lower()`). -/
def lowerChars (l : List Char) : List Char := l.map Char.toLower

/-- Python's `pat in text` substring test (scan over all suffixes). -/
def containsL : List Char → List Char → Bool
  | [], pat => pat.isEmpty
  | c :: rest, pat => pat.isPrefixOf (c :: rest) || containsL rest pat

theorem containsL_iff {text pat : List Char} : containsL text pat = true ↔ pat <:+: text := by
  induction text with
  | nil => simp [containsL, List.isEmpty_iff, List.infix_nil]
  | cons c rest ih =>
    simp [containsL, Bool.or_eq_true, List.isPrefixOf_iff_prefix, ih, List.infix_cons_iff]

theorem containsL_of_infix {text pat : List Char} (h : pat <:+: text) : containsL text pat = true :=
  containsL_iff.mpr h

/-- An infix of `A` is an infix of `A ++ B`. -/
theorem infix_append_left {p A : List Char} (B : List Char) (h : p <:+: A) : p <:+: A ++ B :=
  h.trans (List.prefix_append A B).isInfix

/-- An infix of `B` is an infix of `A ++ B`. -/
theorem infix_append_right {p B : List Char} (A : List Char) (h : p <:+: B) : p <:+: A ++ B :=
  h.trans (List.suffix_append A B).isInfix

/-! ### The Document record (one fetched paper, `arxiv_client.fetch_recent_ai_papers`) -/

/-- One fetched paper, as produced by the feed-fetch stage.  `importance_score`
is `none` until (and unless) `filter_important_papers` assigns it; it is
measured in hundredths of a score point. -/
structure Paper where
  id : String := ""
  title : String
  summary : String
  authors : List String := []
  published : String := ""
  categories : List String := []
  importance_score : Option Int := none
deriving DecidableEq, Repr

/-! ### Keyword tables (verbatim from `filter_important_papers`) -/

/-- High-priority keywords, weight 3.0 (`300`), title bonus 1.0 (`100`). -/
def high_priority_keywords : List String := [
  "code generation", "code completion", "copilot", "coding assistant",
  "web development", "frontend", "backend", "full stack",
  "automated testing", "test generation", "bug detection", "code review",
  "deployment", "devops", "ci/cd", "continuous integration",
  "api", "rest", "graphql", "microservices", "serverless",
  "javascript", "typescript", "react", "vue", "angular", "node.js",
  "python", "django", "flask", "fastapi",
  "web security", "vulnerability detection", "security analysis"]

/-- Medium-priority keywords, weight 2.0 (`200`), title bonus 0.5 (`50`). -/
def medium_priority_keywords : List String := [
  "llm", "large language model", "gpt", "claude", "gemini",
  "retrieval augmented generation", "rag", "embeddings", "vector database",
  "chatbot", "conversational ai", "customer support", "virtual assistant",
  "search", "recommendation", "personalization", "content generation",
  "natural language processing", "nlp", "text analysis", "sentiment analysis",
  "automated workflow", "process automation", "intelligent agent",
  "real-time", "streaming", "scalability", "performance optimization",
  "user experience", "ux", "accessibility", "personalization"]

/-- Basic keywords, weight 1.0 (`100`), no title bonus. -/
def basic_keywords : List String := [
  "machine learning", "deep learning", "neural network",
  "optimization", "efficient", "lightweight", "fast", "low latency",
  "monitoring", "observability", "analytics", "metrics",
  "database", "caching", "storage", "data processing",
  "cloud", "aws", "azure", "gcp", "kubernetes", "docker",
  "performance", "benchmark", "evaluation", "testing",
  "maintainability", "reliability", "robustness"]

/-- Exclusion keywords, each match subtracts 2.0 (`200`). -/
def exclusion_keywords : List String := [
  "survey", "review", "tutorial", "preliminary", "work in progress",
  "short paper", "position paper", "demo", "poster",
  "theoretical", "mathematical proof", "formal verification",
  "robotics", "hardware", "embedded", "iot sensor",
  "medical", "healthcare", "biology", "physics", "chemistry"]

/-- Prestigious affiliations, flat bonus 2.0 (`200`), first match only. -/
def prestigious_affiliations : List String := [
  "google", "meta", "microsoft", "amazon", "netflix", "uber", "airbnb",
  "github", "openai", "anthropic", "vercel", "stripe", "shopify",
  "stanford", "mit", "berkeley", "carnegie mellon", "toronto",
  "deepmind", "hugging face", "databricks", "snowflake"]

/-- Practical/implementation keywords, weight 1.5 (`150`) each. -/
def practical_keywords : List String := [
  "implementation", "system", "framework", "tool", "platform",
  "open source", "github", "repository", "dataset", "benchmark",
  "evaluation", "experiment", "comparison", "analysis", "study"]

/-- Web-engineering-relevant arXiv categories, flat bonus 2.0 (`200`). -/
def web_relevant_categories : List String :=
  ["cs.SE", "cs.HC", "cs.IR", "cs.DB", "cs.DC", "cs.PL", "cs.CR"]

/-! ### Date parsing and the recency bonus -/

/-- Decimal digit value of a character, if it is a digit. -/
def digitVal (c : Char) : Option Nat :=
  if c.isDigit then some (c.toNat - 48) else none

/-- Gregorian leap-year test. -/
def isLeapYear (y : Nat) : Bool := y % 4 == 0 && (y % 100 != 0 || y % 400 == 0)

/-- Days in a month of the proleptic Gregorian calendar. -/
def daysInMonth (y m : Nat) : Nat :=
  if m == 2 then (if isLeapYear y then 29 else 28)
  else if m == 4 || m == 6 || m == 9 || m == 11 then 30
  else 31

/-- Civil day number of a Gregorian date (days since 0000-03-01), valid for
years `≥ 1`; monotone in the date, so differences are ages in days. -/
def civilDay (y m d : Nat) : Nat :=
  let ya := if m ≤ 2 then y - 1 else y
  let mp := if m ≤ 2 then m + 9 else m - 3
  let doy := (153 * mp + 2) / 5 + (d - 1)
  ya * 365 + ya / 4 + ya / 400 + doy - ya / 100

/-- `strptime(s[:10], "%Y-%m-%d")`, for the zero-padded ISO layout the arXiv
feed emits, returning the civil day number of the parsed date; `none` models
the silently swallowed `ValueError`. -/
def parseDate10 (s : String) : Option Int :=
  match s.toList.take 10 with
  | [y1, y2, y3, y4, h1, m1, m2, h2, d1, d2] =>
    match digitVal y1, digitVal y2, digitVal y3, digitVal y4,
          digitVal m1, digitVal m2, digitVal d1, digitVal d2 with
    | some a, some b, some c, some d, some e, some f, some g, some h =>
      if h1 = '-' ∧ h2 = '-' then
        let y := 1000 * a + 100 * b + 10 * c + d
        let m := 10 * e + f
        let dd := 10 * g + h
        if 1 ≤ y ∧ 1 ≤ m ∧ m ≤ 12 ∧ 1 ≤ dd ∧ dd ≤ daysInMonth y m then
          some (civilDay y m dd : Int)
        else none
      else none
    | _, _, _, _, _, _, _, _ => none
  | _ => none

/-- Recency bonus: `+1.0` within 30 days, `+0.5` within 90 days, date-parse
failure contributes nothing (`except: pass`).  `now` is the civil day number
of the current day. -/
def recencyScore (now : Int) (published : String) : Int :=
  match parseDate10 published with
  | none => 0
  | some pub =>
    let days_old := now - pub
    if days_old ≤ 30 then 100
    else if days_old ≤ 90 then 50
    else 0

/-! ### The Scorer (`filter_important_papers`, scoring part) -/

/-- Lower-cased title characters (`title_lower`). -/
def titleChars (p : Paper) : List Char := lowerChars p.title.toList

/-- Lower-cased `title + " " + summary` characters (`text_to_check`). -/
def textChars (p : Paper) : List Char :=
  titleChars p ++ ' ' :: lowerChars p.summary.toList

/-- Lower-cased `" ".join(authors)` characters (`authors_lower`). -/
def authorsChars (p : Paper) : List Char :=
  lowerChars (String.intercalate " " p.authors).toList

/-- One keyword tier with a title bonus: each phrase present in the search
text adds `base`, and additionally `titleBonus` if it is also in the title. -/
def keywordTierScore (text title : List Char) (kws : List String)
    (base titleBonus : Int) : Int :=
  (kws.map (fun k =>
    if containsL text k.toList then
      base + (if containsL title k.toList then titleBonus else 0)
    else 0)).sum

/-- A keyword list without a title bonus: each phrase present adds `w`
(cumulative; used for basic, exclusion and practical keywords). -/
def flatKeywordScore (text : List Char) (kws : List String) (w : Int) : Int :=
  (kws.map (fun k => if containsL text k.toList then w else 0)).sum

/-- Prestigious-affiliation bonus: `+2.0` once if any affiliation fragment
occurs in the authors string (the `break` makes it first-match-only). -/
def affiliationScore (authors : List Char) : Int :=
  if prestigious_affiliations.any (fun a => containsL authors a.toList) then 200 else 0

/-- Category bonus: `+2.0` once if any of the paper's categories is
web-relevant (the `break` makes it fire at most once). -/
def categoryScore (cats : List String) : Int :=
  if cats.any (fun c => web_relevant_categories.contains c) then 200 else 0

/-- Author-count adjustment: `+1.0` for 2–6 authors, `-1.0` for more than 12. -/
def authorCountScore (n : Nat) : Int :=
  if 2 ≤ n ∧ n ≤ 6 then 100
  else if 12 < n then -100
  else 0

/-- The full relevance score of one paper (in hundredths of a point), the
accumulated `score` of `filter_important_papers` just before the threshold
test.  `round(score, 2)` in the source rounds to a whole number of
hundredths and is therefore the identity in this representation. -/
def rawScore (p : Paper) (now : Int) : Int :=
  keywordTierScore (textChars p) (titleChars p) high_priority_keywords 300 100
  + keywordTierScore (textChars p) (titleChars p) medium_priority_keywords 200 50
  + flatKeywordScore (textChars p) basic_keywords 100
  + affiliationScore (authorsChars p)
  + flatKeywordScore (textChars p) exclusion_keywords (-200)
  + flatKeywordScore (textChars p) practical_keywords 150
  + categoryScore p.categories
  + authorCountScore p.authors.length
  + recencyScore now p.published

/-! ### Stable descending sort (Python `list.sort(key=..., reverse=True)`)

Python's sort is stable; with `reverse=True` it orders by key descending and
keeps the original relative order of equal keys.  That behaviour is fully
characterised by the three lemmas proved below (permutation, sortedness,
equal-key stability), and is realised here by insertion sort so that the
function also evaluates by kernel reduction on concrete inputs. -/

/-- Insert `a` behind every element whose key is at least `key a`. -/
def insertDesc {α β : Type} [LinearOrder β] (key : α → β) (a : α) : List α → List α
  | [] => [a]
  | b :: l => if key b < key a then a :: b :: l else b :: insertDesc key a l

/-- Stable sort by `key` descending. -/
def sortDesc {α β : Type} [LinearOrder β] (key : α → β) (l : List α) : List α :=
  l.foldl (fun acc a => insertDesc key a acc) []

section SortLemmas

variable {α β : Type} [LinearOrder β] (key : α → β)

theorem perm_insertDesc (a : α) (l : List α) : (insertDesc key a l).Perm (a :: l) := by
  induction l with
  | nil => exact List.Perm.refl _
  | cons b l ih =>
    by_cases h : key b < key a
    · simp [insertDesc, h]
    · simp only [insertDesc, if_neg h]
      exact (ih.cons b).trans (List.Perm.swap a b l)

theorem sorted_insertDesc (a : α) (l : List α)
    (hl : l.Pairwise (fun x y => key y ≤ key x)) :
    (insertDesc key a l).Pairwise (fun x y => key y ≤ key x) := by
  induction l with
  | nil => simp [insertDesc]
  | cons b l ih =>
    rcases List.pairwise_cons.mp hl with ⟨hb, hl'⟩
    by_cases h : key b < key a
    · simp only [insertDesc, if_pos h]
      refine List.pairwise_cons.mpr ⟨?_, hl⟩
      intro x hx
      rcases List.mem_cons.mp hx with rfl | hx
      · exact le_of_lt h
      · exact le_trans (hb x hx) (le_of_lt h)
    · simp only [insertDesc, if_neg h]
      refine List.pairwise_cons.mpr ⟨?_, ih hl'⟩
      intro x hx
      rcases List.mem_cons.mp ((perm_insertDesc key a l).mem_iff.mp hx) with rfl | hx
      · exact le_of_not_lt h
      · exact hb x hx

theorem filter_insertDesc_of_ne (a : α) (l : List α) (s : β) (h : key a ≠ s) :
    (insertDesc key a l).filter (fun x => decide (key x = s))
      = l.filter (fun x => decide (key x = s)) := by
  induction l with
  | nil => simp [insertDesc, List.filter_cons, h]
  | cons b l ih =>
    by_cases hb : key b < key a
    · simp only [insertDesc, if_pos hb]
      simp [List.filter_cons, h]
    · simp only [insertDesc, if_neg hb]
      simp only [List.filter_cons]
      rw [ih]

theorem filter_insertDesc_of_eq (a : α) (l : List α) (s : β) (h : key a = s)
    (hl : l.Pairwise (fun x y => key y ≤ key x)) :
    (insertDesc key a l).filter (fun x => decide (key x = s))
      = l.filter (fun x => decide (key x = s)) ++ [a] := by
  induction l with
  | nil => simp [insertDesc, List.filter_cons, h]
  | cons b l ih =>
    rcases List.pairwise_cons.mp hl with ⟨hb, hl'⟩
    by_cases hba : key b < key a
    · simp only [insertDesc, if_pos hba]
      have hnil : (b :: l).filter (fun x => decide (key x = s)) = [] := by
        apply List.filter_eq_nil_iff.mpr
        intro x hx
        have hxs : key x < s := by
          rcases List.mem_cons.mp hx with rfl | hx'
          · exact h ▸ hba
          · exact lt_of_le_of_lt (hb x hx') (h ▸ hba)
        simp [ne_of_lt hxs]
      rw [hnil]
      simp [List.filter_cons, h, hnil]
    · simp only [insertDesc, if_neg hba]
      by_cases hbs : key b = s
      · simp [List.filter_cons, hbs, ih hl']
      · simp [List.filter_cons, hbs, ih hl']

theorem sortDesc_core (l acc : List α)
    (hacc : acc.Pairwise (fun x y => key y ≤ key x)) :
    (l.foldl (fun acc a => insertDesc key a acc) acc).Perm (acc ++ l)
    ∧ (l.foldl (fun acc a => insertDesc key a acc) acc).Pairwise (fun x y => key y ≤ key x)
    ∧ ∀ s : β, (l.foldl (fun acc a => insertDesc key a acc) acc).filter (fun x => decide (key x = s))
        = acc.filter (fun x => decide (key x = s)) ++ l.filter (fun x => decide (key x = s)) := by
  induction l generalizing acc with
  | nil => exact ⟨by simp, hacc, by simp⟩
  | cons a l ih =>
    have hacc' := sorted_insertDesc key a acc hacc
    obtain ⟨hperm, hsort, hfilt⟩ := ih (insertDesc key a acc) hacc'
    refine ⟨?_, hsort, ?_⟩
    · simp only [List.foldl_cons]
      refine hperm.trans ?_
      exact ((perm_insertDesc key a acc).append_right l).trans List.perm_middle.symm
    · intro s
      simp only [List.foldl_cons]
      rw [hfilt s]
      by_cases hs : key a = s
      · rw [filter_insertDesc_of_eq key a acc s hs hacc]
        simp [List.filter, hs]
      · rw [filter_insertDesc_of_ne key a acc s hs]
        simp [List.filter, hs]

theorem sortDesc_perm (l : List α) : (sortDesc key l).Perm l :=
  (sortDesc_core key l [] List.Pairwise.nil).1

theorem sortDesc_sorted (l : List α) :
    (sortDesc key l).Pairwise (fun x y => key y ≤ key x) :=
  (sortDesc_core key l [] List.Pairwise.nil).2.1

theorem sortDesc_filter (l : List α) (s : β) :
    (sortDesc key l).filter (fun x => decide (key x = s)) = l.filter (fun x => decide (key x = s)) :=
  ((sortDesc_core key l [] List.Pairwise.nil).2.2 s).trans (by simp)

end SortLemmas

/-! ### The Selector (`filter_important_papers`, filtering and sorting part) -/

/-- Sort key: the stored `importance_score` (`x["importance_score"]`; every
paper in the filtered list has one, so the default is never consulted). -/
def scoreKey (p : Paper) : Int := p.importance_score.getD 0

/-- Threshold test and score assignment for one paper: papers meeting the
threshold are returned with `importance_score` set to the (rounded) score;
the rest are dropped from the result list. -/
def retainPaper (p : Paper) (now : Int) (minScore : Int) : Option Paper :=
  let score := rawScore p now
  if minScore ≤ score then some { p with importance_score := some score } else none

/-- The retained papers in input order (`filtered_papers` before the sort). -/
def keptPapers (papers : List Paper) (now : Int) (minScore : Int) : List Paper :=
  papers.filterMap (fun p => retainPaper p now minScore)

/-- `filter_important_papers(papers, min_importance_score)`: score every
paper against one civil-day value `now`, retain the ones meeting the
threshold, and stable-sort them by score descending. -/
def filter_important_papers (papers : List Paper) (now : Int) (minScore : Int) : List Paper :=
  sortDesc scoreKey (keptPapers papers now minScore)

/-- The state of one input paper after the call: the source mutates retained
papers in place (`paper["importance_score"] = round(score, 2)`) and leaves
the rest untouched. -/
def markPaper (p : Paper) (now : Int) (minScore : Int) : Paper :=
  let score := rawScore p now
  if minScore ≤ score then { p with importance_score := some score } else p

/-- The whole input batch after the call (retained papers mutated, others
unchanged). -/
def batchAfterFilter (papers : List Paper) (now : Int) (minScore : Int) : List Paper :=
  papers.map (fun p => markPaper p now minScore)

/-- Clock-faithful variant of `filter_important_papers`: the source calls
`datetime.now()` separately for each paper inside the loop, so each paper is
scored against its own clock reading; `nows` lists those readings in order. -/
def filter_important_papers_reads (papers : List Paper) (nows : List Int)
    (minScore : Int) : List Paper :=
  sortDesc scoreKey ((papers.zip nows).filterMap (fun pn => retainPaper pn.1 pn.2 minScore))

/-! ### Auxiliary lemmas for the Selector claims -/

theorem zip_replicate_self {γ δ : Type} (l : List γ) (x : δ) :
    l.zip (List.replicate l.length x) = l.map (fun a => (a, x)) := by
  induction l with
  | nil => rfl
  | cons a l ih => simp [List.replicate_succ, ih]

/-! ### Concrete papers used by witnesses and counterexamples -/

/-- The scenario paper of §8 of the spec (claim C7). -/
def paperC7 : Paper :=
  { title := "A New Copilot for Code Generation"
    summary := "We build a coding assistant..."
    authors := ["A. Smith (Google)"]
    published := "2024-06-10T00:00:00Z"
    categories := ["cs.SE"] }

/-- Civil day number five days after `paperC7`'s publication date. -/
def nowC7 : Int := (civilDay 2024 6 15 : Int)

/-- A minimal paper whose only match is the high keyword `api` (score 4.0). -/
def paperApi : Paper := { title := "api", summary := "q" }

/-- `paperApi` as returned by a selection pass (score 4.0 attached). -/
def paperApiScored : Paper := { paperApi with importance_score := some 400 }

/-- A paper matching no keyword at all (score 0). -/
def paperLow : Paper := { title := "zzz", summary := "qqq" }

/-- Like `paperApi` but carrying a publication date, for the clock claims. -/
def paperClock : Paper := { title := "api", summary := "q", published := "2024-01-01T00:00:00Z" }

/-- Civil day number of `paperClock`'s publication date. -/
def day0 : Int := (civilDay 2024 1 1 : Int)

/-- `paperClock` scored five days after publication (4.0 + 1.0 recency). -/
def paperClock500 : Paper := { paperClock with importance_score := some 500 }

/-- `paperClock` scored sixty days after publication (4.0 + 0.5 recency). -/
def paperClock450 : Paper := { paperClock with importance_score := some 450 }

/-- A paper whose publication date lies in the future (for claim C10). -/
def paperFuture : Paper := { title := "zzz", summary := "", published := "2030-01-02T00:00:00Z" }

/-- Civil day number of `paperFuture`'s publication date. -/
def dayFuture : Int := (civilDay 2030 1 2 : Int)

/-- A civil day number well before `dayFuture` (2026-10-12). -/
def nowPast : Int := (civilDay 2026 10 12 : Int)

/-! ### Claim C1 -/

/-- Claim C1: for every batch and threshold, `filter_important_papers`
returns exactly the input papers whose computed score meets the threshold
(`keptPapers`, which lists them in input order with their score attached):
the output is a permutation of them, it is sorted by `importance_score`
descending, and for each score value the papers carrying that score appear
in exactly their input order (stability of the sort). -/
theorem C1_select_exact_sorted_stable (papers : List Paper) (now minScore : Int) :
    (filter_important_papers papers now minScore).Perm (keptPapers papers now minScore)
    ∧ (filter_important_papers papers now minScore).Pairwise (fun a b => scoreKey b ≤ scoreKey a)
    ∧ ∀ s : Int,
        (filter_important_papers papers now minScore).filter (fun p => decide (scoreKey p = s))
          = (keptPapers papers now minScore).filter (fun p => decide (scoreKey p = s)) :=
  ⟨sortDesc_perm scoreKey _, sortDesc_sorted scoreKey _, fun s => sortDesc_filter scoreKey _ s⟩

/-! ### Claim C2 -/

/-- Claim C2 counterexample: after a selection pass at the default threshold
5.0, the below-threshold paper of the batch still has no `importance_score`
assigned — refuting the claim that every input paper, including those not
meeting the threshold, gets the field written. -/
theorem C2_counterexample :
    (batchAfterFilter [paperLow] 0 500).map (fun p => p.importance_score) = [none] := by
  decide

/-- Claim C2 amended: a selection pass assigns `importance_score` exactly to
the papers meeting the threshold (set to their computed score) and leaves
every below-threshold paper's field untouched; in particular every paper of
the returned list carries a score. -/
theorem C2_amended_only_retained_scored (papers : List Paper) (now minScore : Int) :
    (batchAfterFilter papers now minScore).map (fun p => p.importance_score)
      = papers.map (fun p =>
          if minScore ≤ rawScore p now then some (rawScore p now) else p.importance_score)
    ∧ ∀ q ∈ filter_important_papers papers now minScore, q.importance_score.isSome := by
  constructor
  · unfold batchAfterFilter
    rw [List.map_map]
    apply List.map_congr_left
    intro p _
    unfold markPaper
    by_cases h : minScore ≤ rawScore p now
    · simp [h]
    · simp [h]
  · intro q hq
    have hq' := (sortDesc_perm scoreKey _).mem_iff.mp hq
    rcases List.mem_filterMap.mp hq' with ⟨p, _, hp⟩
    unfold retainPaper at hp
    by_cases h : minScore ≤ rawScore p now
    · simp only [if_pos h, Option.some.injEq] at hp
      rw [← hp]
      rfl
    · simp [h] at hp

/-- Witness for the amended C2 theorem at a concrete batch: `paperApi`
meets the threshold 3.0, appears in the returned list with its score
attached, and the theorem yields that its field is assigned. -/
theorem C2_amended_only_retained_scored_witness :
    paperApiScored ∈ filter_important_papers [paperApi] 0 300
    ∧ paperApiScored.importance_score.isSome :=
  ⟨by decide, (C2_amended_only_retained_scored [paperApi] 0 300).2 paperApiScored (by decide)⟩

/-! ### Claim C3 -/

/-- Claim C3: with one fixed `now` and thresholds `tRelaxed ≤ tStrict`, the
relaxed selection contains (as identical `Paper` values, hence with the same
attached score — no paper is rescored differently) every paper of the strict
selection, and the relaxed result is still sorted by score descending. -/
theorem C3_threshold_cascade (papers : List Paper) (now tStrict tRelaxed : Int)
    (h : tRelaxed ≤ tStrict) :
    (∀ p ∈ filter_important_papers papers now tStrict,
        p ∈ filter_important_papers papers now tRelaxed)
    ∧ (filter_important_papers papers now tRelaxed).Pairwise
        (fun a b => scoreKey b ≤ scoreKey a) := by
  refine ⟨?_, sortDesc_sorted scoreKey _⟩
  intro p hp
  have hp' := (sortDesc_perm scoreKey _).mem_iff.mp hp
  rcases List.mem_filterMap.mp hp' with ⟨q, hq, hq2⟩
  unfold retainPaper at hq2
  by_cases hs : tStrict ≤ rawScore q now
  · simp only [if_pos hs] at hq2
    have hr : tRelaxed ≤ rawScore q now := le_trans h hs
    apply (sortDesc_perm scoreKey _).mem_iff.mpr
    apply List.mem_filterMap.mpr
    refine ⟨q, hq, ?_⟩
    simp only [retainPaper, if_pos hr]
    exact hq2
  · simp [hs] at hq2

/-- Witness for C3 at a concrete batch and the source's thresholds 4.0/3.0. -/
theorem C3_threshold_cascade_witness :
    (300 : Int) ≤ 400
    ∧ ((∀ p ∈ filter_important_papers [paperApi] 0 400,
          p ∈ filter_important_papers [paperApi] 0 300)
       ∧ (filter_important_papers [paperApi] 0 300).Pairwise
           (fun a b => scoreKey b ≤ scoreKey a)) :=
  ⟨by decide, C3_threshold_cascade [paperApi] 0 400 300 (by decide)⟩

/-! ### Claim C5 -/

/-- Claim C5 counterexample: the source reads `datetime.now()` once per paper
inside the scoring loop; with reads that fall on different days, the two
identical papers of this batch receive different scores in a single call —
an output that no single injected `now` value can reproduce, refuting the
claim that the wall-clock behaves as one injectable `now`. -/
theorem C5_counterexample :
    ¬ ∃ now : Int,
        filter_important_papers_reads [paperClock, paperClock] [day0 + 5, day0 + 60] 0
          = filter_important_papers [paperClock, paperClock] now 0 := by
  rintro ⟨now, h⟩
  have hL : filter_important_papers_reads [paperClock, paperClock] [day0 + 5, day0 + 60] 0
      = [paperClock500, paperClock450] := by decide
  rw [hL] at h
  unfold filter_important_papers keptPapers at h
  cases hf : retainPaper paperClock now 0 with
  | none =>
    rw [List.filterMap_cons, List.filterMap_cons, hf] at h
    simp [sortDesc] at h
  | some q =>
    rw [List.filterMap_cons, List.filterMap_cons, hf] at h
    simp only [List.filterMap_nil] at h
    have hsort : sortDesc scoreKey [q, q] = [q, q] := by
      simp [sortDesc, insertDesc, lt_irrefl]
    rw [hsort] at h
    have h1 : paperClock500 = q := by injection h
    have h2 : paperClock450 = q := by
      have := h
      injection this with _ htl
      injection htl
    exact absurd (h1.trans h2.symm) (by decide)

/-- Claim C5 amended: the per-paper clock reads coincide with one injected
`now` exactly when every read returns the same day value; in that case a run
is fully determined by the batch, the threshold and that single value, which
is the reproducibility the spec demands. -/
theorem C5_amended_single_now (papers : List Paper) (now minScore : Int) :
    filter_important_papers_reads papers (List.replicate papers.length now) minScore
      = filter_important_papers papers now minScore := by
  unfold filter_important_papers_reads filter_important_papers keptPapers
  rw [zip_replicate_self, List.filterMap_map]
  rfl

/-! ### Claim C7 -/

/-- Claim C7: the spec's scenario paper — copilot/code-generation title,
coding-assistant abstract, one Google author, category cs.SE, published five
days before `now` — scores at least 9.0 (900 hundredths; it in fact scores
16.0). -/
theorem C7_scenario_scores_at_least_nine :
    parseDate10 paperC7.published = some (nowC7 - 5) ∧ 900 ≤ rawScore paperC7 nowC7 := by
  decide

/-! ### Claim C10 -/

/-- Claim C10: a paper whose `published` field parses to a calendar day
strictly after the current day (negative age) still receives the full
recency bonus of 1.0, because a negative age passes the `≤ 30` test. -/
theorem C10_future_date_gets_full_recency (p : Paper) (now d : Int)
    (hparse : parseDate10 p.published = some d) (hfut : now < d) :
    recencyScore now p.published = 100 := by
  unfold recencyScore
  rw [hparse]
  have hle : now - d ≤ 30 := by omega
  simp [hle]

/-- Witness for C10: a paper dated 2030-01-02 evaluated on 2026-10-12. -/
theorem C10_future_date_gets_full_recency_witness :
    (parseDate10 paperFuture.published = some dayFuture ∧ nowPast < dayFuture)
    ∧ recencyScore nowPast paperFuture.published = 100 :=
  ⟨by decide, C10_future_date_gets_full_recency paperFuture nowPast dayFuture
    (by decide) (by decide)⟩

/-! ### Trend tables (verbatim from `TrendAnalyzer.__init__`) -/

/-- `self.trend_keywords`, in dict insertion order. -/
def trend_keywords : List (String × List String) := [
  ("ai_ml", ["llm", "large language model", "gpt", "transformer", "attention",
    "diffusion", "generative ai", "foundation model", "multimodal",
    "retrieval augmented generation", "rag", "fine-tuning", "rlhf",
    "chain of thought", "in-context learning", "few-shot", "zero-shot"]),
  ("development", ["code generation", "copilot", "coding assistant", "automated testing",
    "ci/cd", "devops", "microservices", "serverless", "containerization",
    "kubernetes", "api", "rest", "graphql", "websocket", "real-time"]),
  ("web_tech", ["react", "vue", "angular", "svelte", "nextjs", "nuxt", "remix",
    "typescript", "javascript", "node.js", "deno", "bun",
    "tailwind", "css", "html", "pwa", "spa", "ssr", "ssg"]),
  ("data_infra", ["database", "nosql", "sql", "postgresql", "mongodb", "redis",
    "elasticsearch", "vector database", "embedding", "search",
    "caching", "cdn", "cloud", "aws", "azure", "gcp", "edge computing"]),
  ("security", ["security", "authentication", "authorization", "oauth", "jwt",
    "encryption", "vulnerability", "privacy", "gdpr", "compliance",
    "zero trust", "devsecops", "penetration testing", "threat detection"]),
  ("performance", ["performance", "optimization", "monitoring", "observability",
    "metrics", "logging", "tracing", "alerting", "sli", "slo",
    "load balancing", "scalability", "high availability", "latency"])]

/-- `self.emerging_keywords`. -/
def emerging_keywords : List String := [
  "webassembly", "wasm", "web3", "blockchain", "metaverse", "ar", "vr",
  "quantum computing", "edge ai", "federated learning", "mlops",
  "chatops", "gitops", "platform engineering", "developer experience"]

/-- The institution fragments checked per author in `extract_trends`. -/
def institutions : List String := [
  "google", "meta", "microsoft", "amazon", "openai", "anthropic",
  "stanford", "mit", "berkeley", "harvard", "carnegie mellon"]

/-! ### Counters (Python `collections.Counter` as insertion-ordered lists) -/

/-- A `Counter`: keys in first-insertion order with their counts. -/
abbrev Counter := List (String × Nat)

/-- `counter[k] += 1`: an existing key keeps its position, a new key is
appended at the end (Python dict insertion order). -/
def bump : Counter → String → Counter
  | [], k => [(k, 1)]
  | (k', n) :: rest, k =>
    if k' == k then (k', n + 1) :: rest else (k', n) :: bump rest k

/-- `defaultdict(Counter)` update `cc[cat][k] += 1`. -/
def bumpCat : List (String × Counter) → String → String → List (String × Counter)
  | [], cat, k => [(cat, bump [] k)]
  | (c, ctr) :: rest, cat, k =>
    if c == cat then (c, bump ctr k) :: rest else (c, ctr) :: bumpCat rest cat k

/-- `Counter.most_common(k)`: counts descending, stable in first-insertion
order among equal counts (CPython's `nlargest` decorates items with their
position to keep exactly this order), truncated to `k` entries. -/
def mostCommon (c : Counter) (k : Nat) : Counter := (sortDesc (fun e => e.2) c).take k

/-! ### `extract_trends` -/

/-- The accumulators threaded through the paper loop of `extract_trends`. -/
structure TrendState where
  category_counts : List (String × Counter) := []
  keyword_counts : Counter := []
  emerging_counts : Counter := []
  institution_counts : Counter := []
  arxiv_category_counts : Counter := []
deriving DecidableEq, Repr

/-- The dictionary returned by `extract_trends`. -/
structure TrendReport where
  category_trends : List (String × Counter)
  top_keywords : Counter
  emerging_tech : Counter
  active_institutions : Counter
  research_areas : Counter
  total_papers : Nat
deriving DecidableEq, Repr

/-- Lower-cased `title + " " + summary` as built in `extract_trends`. -/
def trendText (p : Paper) : List Char := lowerChars (p.title ++ " " ++ p.summary).toList

/-- The nested loop `for category, keywords in trend_keywords.items(): for
keyword in keywords:` flattened into its exact iteration sequence. -/
def trendPairs : List (String × String) :=
  trend_keywords.flatMap (fun ck => ck.2.map (fun k => (ck.1, k)))

/-- One step of the per-category keyword loop: a matching keyword bumps both
its per-category counter and the flat global counter. -/
def kwStep (text : List Char) (s : TrendState) (ck : String × String) : TrendState :=
  if containsL text ck.2.toList then
    { s with category_counts := bumpCat s.category_counts ck.1 ck.2,
             keyword_counts := bump s.keyword_counts ck.2 }
  else s

/-- One step of the emerging-keyword loop. -/
def emStep (text : List Char) (s : TrendState) (kw : String) : TrendState :=
  if containsL text kw.toList then
    { s with emerging_counts := bump s.emerging_counts kw }
  else s

/-- One step of the author loop: the first matching institution fragment is
counted, further fragments are skipped (`break`). -/
def instStep (s : TrendState) (author : String) : TrendState :=
  match institutions.find? (fun inst => containsL (lowerChars author.toList) inst.toList) with
  | some inst => { s with institution_counts := bump s.institution_counts inst }
  | none => s

/-- One step of the arXiv-category loop: every tag counts. -/
def arxStep (s : TrendState) (c : String) : TrendState :=
  { s with arxiv_category_counts := bump s.arxiv_category_counts c }

/-- The body of `extract_trends`' paper loop. -/
def processPaperTrends (st : TrendState) (p : Paper) : TrendState :=
  let text := trendText p
  p.categories.foldl arxStep
    (p.authors.foldl instStep
      (emerging_keywords.foldl (emStep text)
        (trendPairs.foldl (kwStep text) st)))

/-- The accumulator state after scanning the whole batch. -/
def trendFold (papers : List Paper) : TrendState :=
  papers.foldl processPaperTrends {}

/-- `extract_trends(papers)`. -/
def extract_trends (papers : List Paper) : TrendReport :=
  { category_trends := (trendFold papers).category_counts
    top_keywords := mostCommon (trendFold papers).keyword_counts 10
    emerging_tech := mostCommon (trendFold papers).emerging_counts 5
    active_institutions := mostCommon (trendFold papers).institution_counts 5
    research_areas := mostCommon (trendFold papers).arxiv_category_counts 8
    total_papers := papers.length }

/-! ### `generate_trend_summary` -/

/-- The category display names of `generate_trend_summary`. -/
def category_names : List (String × String) := [
  ("ai_ml", "🤖 AI/ML技術"),
  ("development", "⚙️ 開発技術"),
  ("web_tech", "🌐 Web技術"),
  ("data_infra", "💾 データ・インフラ"),
  ("security", "🔒 セキュリティ"),
  ("performance", "⚡ パフォーマンス")]

/-- The research-area display names of `generate_trend_summary`. -/
def area_names : List (String × String) := [
  ("cs.AI", "人工知能"), ("cs.LG", "機械学習"), ("cs.CL", "自然言語処理"),
  ("cs.SE", "ソフトウェア工学"), ("cs.HC", "HCI"), ("cs.IR", "情報検索"),
  ("cs.DB", "データベース"), ("cs.DC", "分散システム"), ("cs.PL", "プログラミング言語"),
  ("cs.CR", "暗号・セキュリティ"), ("cs.CV", "コンピュータビジョン")]

/-- Helper for Python `str.title()`: characters after an alphabetic one are
lower-cased, the rest upper-cased. -/
def pyTitleAux : Bool → List Char → List Char
  | _, [] => []
  | prevAlpha, c :: rest =>
    (if prevAlpha then c.toLower else c.toUpper) :: pyTitleAux c.isAlpha rest

/-- Python `str.title()` (on the ASCII keyword strings handled here). -/
def pyTitle (s : String) : String := String.mk (pyTitleAux false s.toList)

/-- `generate_trend_summary(trends)`: deterministic text assembly of the
report, joined with newlines. -/
def generate_trend_summary (trends : TrendReport) : String :=
  let header := ["📊 **今日の研究動向** (対象: " ++ toString trends.total_papers ++ "件の論文)", ""]
  let topkw :=
    if trends.top_keywords.isEmpty then []
    else "🔥 **注目キーワード TOP5:**" ::
      (trends.top_keywords.take 5).enum.map (fun ie =>
        "  " ++ toString (ie.1 + 1) ++ ". **" ++ pyTitle ie.2.1 ++ "** (" ++ toString ie.2.2 ++ "件)")
  let cats := "📈 **分野別トレンド:**" ::
    category_names.filterMap (fun cn =>
      match (trends.category_trends.find? (fun e => e.1 == cn.1)).map (fun e => e.2) with
      | some ctr =>
        if ctr.isEmpty then none
        else
          let top := (mostCommon ctr 1).headD ("", 0)
          let total := (ctr.map (fun e => e.2)).sum
          some ("  " ++ cn.2 ++ ": **" ++ pyTitle top.1 ++ "** (" ++ toString total ++ "件)")
      | none => none)
  let emer :=
    if trends.emerging_tech.isEmpty then []
    else ("🚀 **新興技術動向:**" ::
      trends.emerging_tech.map (fun e => "  • **" ++ pyTitle e.1 ++ "** (" ++ toString e.2 ++ "件)")) ++ [""]
  let inst :=
    if trends.active_institutions.isEmpty then []
    else ("🏛️ **活発な研究機関:**" ::
      trends.active_institutions.map (fun e => "  • **" ++ pyTitle e.1 ++ "** (" ++ toString e.2 ++ "件)")) ++ [""]
  let areas :=
    if trends.research_areas.isEmpty then []
    else "📚 **活発な研究分野:**" ::
      (trends.research_areas.take 5).map (fun e =>
        "  • **" ++ (((area_names.find? (fun an => an.1 == e.1)).map (fun an => an.2)).getD e.1)
          ++ "** (" ++ toString e.2 ++ "件)")
  String.intercalate "\n" (header ++ topkw ++ [""] ++ cats ++ [""] ++ emer ++ inst ++ areas)

/-! ### Claim C8 -/

/-- The character searched for in the rendered summary for claim C8. -/
def zeroDigit : List Char := ['0']

/-- Claim C8: on the empty batch, `extract_trends` returns (rather than
raises) a report with zero total papers and all count lists empty,
`generate_trend_summary` of that report is a defined text that contains the
zero count, and selection on the empty batch returns the empty list. -/
theorem C8_empty_batch_graceful :
    ((extract_trends []).total_papers = 0
      ∧ (extract_trends []).top_keywords = []
      ∧ (extract_trends []).emerging_tech = []
      ∧ (extract_trends []).active_institutions = []
      ∧ (extract_trends []).research_areas = []
      ∧ (extract_trends []).category_trends = []
      ∧ containsL (generate_trend_summary (extract_trends [])).toList zeroDigit = true)
    ∧ ∀ now minScore : Int, filter_important_papers [] now minScore = [] := by
  exact ⟨by decide, fun now minScore => rfl⟩

/-! ### Claim C6 -/

/-- Every `most_common` ranking lists counts in descending order. -/
theorem mostCommon_sorted (c : Counter) (k : Nat) :
    (mostCommon c k).Pairwise (fun a b => b.2 ≤ a.2) :=
  List.Pairwise.sublist (List.take_sublist k _) (sortDesc_sorted (fun e => e.2) c)

/-- Every `most_common` ranking is stable: its entries of any fixed count
are an initial segment of the counter's entries of that count, i.e. they
appear in first-insertion order. -/
theorem mostCommon_stable (c : Counter) (k n : Nat) :
    ((mostCommon c k).filter (fun e => decide (e.2 = n))) <+:
      (c.filter (fun e => decide (e.2 = n))) := by
  have h1 : ((mostCommon c k).filter (fun e => decide (e.2 = n))) <+:
      ((sortDesc (fun e : String × Nat => e.2) c).filter (fun e => decide (e.2 = n))) :=
    List.IsPrefix.filter _ (List.take_prefix k _)
  have h2 := sortDesc_filter (fun e : String × Nat => e.2) c n
  exact h2 ▸ h1

/-- Claim C6: in each of the four top-K rankings of `extract_trends` (top
keywords, emerging tech, institutions, source categories), entries are
ordered by count descending, and among entries of equal count the
first-encountered keyword (first-inserted into the counter while scanning
papers in input order) ranks first: the ranking's entries of each count form
a prefix of the counter's entries of that count. -/
theorem C6_topk_sorted_stable (papers : List Paper) (n : Nat) :
    ((extract_trends papers).top_keywords.Pairwise (fun a b => b.2 ≤ a.2)
      ∧ ((extract_trends papers).top_keywords.filter (fun e => decide (e.2 = n))) <+:
          ((trendFold papers).keyword_counts.filter (fun e => decide (e.2 = n))))
    ∧ ((extract_trends papers).emerging_tech.Pairwise (fun a b => b.2 ≤ a.2)
      ∧ ((extract_trends papers).emerging_tech.filter (fun e => decide (e.2 = n))) <+:
          ((trendFold papers).emerging_counts.filter (fun e => decide (e.2 = n))))
    ∧ ((extract_trends papers).active_institutions.Pairwise (fun a b => b.2 ≤ a.2)
      ∧ ((extract_trends papers).active_institutions.filter (fun e => decide (e.2 = n))) <+:
          ((trendFold papers).institution_counts.filter (fun e => decide (e.2 = n))))
    ∧ ((extract_trends papers).research_areas.Pairwise (fun a b => b.2 ≤ a.2)
      ∧ ((extract_trends papers).research_areas.filter (fun e => decide (e.2 = n))) <+:
          ((trendFold papers).arxiv_category_counts.filter (fun e => decide (e.2 = n)))) :=
  ⟨⟨mostCommon_sorted _ 10, mostCommon_stable _ 10 n⟩,
   ⟨mostCommon_sorted _ 5, mostCommon_stable _ 5 n⟩,
   ⟨mostCommon_sorted _ 5, mostCommon_stable _ 5 n⟩,
   ⟨mostCommon_sorted _ 8, mostCommon_stable _ 8 n⟩⟩

/-! ### Claim C9: counts never exceed the batch size -/

/-- Every entry of `bump c k` is either an untouched entry of `c` or the
`k` entry with its count raised by one (possibly freshly created). -/
theorem mem_bump {c : Counter} {k : String} :
    ∀ kv ∈ bump c k, kv ∈ c ∨ ∃ n, kv = (k, n + 1) ∧ ((k, n) ∈ c ∨ n = 0) := by
  induction c with
  | nil =>
    intro kv h
    simp only [bump, List.mem_singleton] at h
    exact Or.inr ⟨0, h, Or.inr rfl⟩
  | cons e rest ih =>
    intro kv h
    obtain ⟨k', n⟩ := e
    by_cases hk : k' == k
    · simp only [bump, if_pos hk] at h
      have hk' : k' = k := eq_of_beq hk
      subst hk'
      rcases List.mem_cons.mp h with rfl | h'
      · exact Or.inr ⟨n, rfl, Or.inl (List.mem_cons_self _ _)⟩
      · exact Or.inl (List.mem_cons_of_mem _ h')
    · simp only [bump, if_neg hk] at h
      rcases List.mem_cons.mp h with rfl | h'
      · exact Or.inl (List.mem_cons_self _ _)
      · rcases ih kv h' with h'' | ⟨m, hm, hmem⟩
        · exact Or.inl (List.mem_cons_of_mem _ h'')
        · refine Or.inr ⟨m, hm, ?_⟩
          rcases hmem with hmem | hmem
          · exact Or.inl (List.mem_cons_of_mem _ hmem)
          · exact Or.inr hmem

/-- Folding `bump` over a duplicate-free key list raises every count by at
most one. -/
theorem foldl_bump_bound {n : Nat} :
    ∀ (ks : List String) (c : Counter), ks.Nodup →
      (∀ kv ∈ c, kv.2 ≤ n ∨ (kv.2 ≤ n + 1 ∧ kv.1 ∉ ks)) →
      ∀ kv ∈ ks.foldl bump c, kv.2 ≤ n + 1 := by
  intro ks
  induction ks with
  | nil =>
    intro c _ hc kv hkv
    rcases hc kv hkv with h | ⟨h, _⟩
    · omega
    · exact h
  | cons k0 ks ih =>
    intro c hnd hc kv hkv
    simp only [List.foldl_cons] at hkv
    rcases List.nodup_cons.mp hnd with ⟨hk0, hnd'⟩
    refine ih (bump c k0) hnd' ?_ kv hkv
    intro kv' hkv'
    rcases mem_bump kv' hkv' with hin | ⟨m, hkv'eq, hmem⟩
    · rcases hc kv' hin with h | ⟨h, hnotin⟩
      · exact Or.inl h
      · exact Or.inr ⟨h, fun hmem2 => hnotin (List.mem_cons_of_mem _ hmem2)⟩
    · subst hkv'eq
      rcases hmem with hmem | rfl
      · rcases hc (k0, m) hmem with h | ⟨_, hnotin⟩
        · exact Or.inr ⟨by omega, hk0⟩
        · exact absurd (List.mem_cons_self k0 ks) hnotin
      · exact Or.inr ⟨by omega, hk0⟩

/-- The global trend keywords a given paper matches, in iteration order. -/
def matchedKw (p : Paper) : List String :=
  (trendPairs.filter (fun ck => containsL (trendText p) ck.2.toList)).map (fun ck => ck.2)

/-- The emerging keywords a given paper matches, in iteration order. -/
def matchedEm (p : Paper) : List String :=
  emerging_keywords.filter (fun kw => containsL (trendText p) kw.toList)

theorem matchedKw_nodup (p : Paper) : (matchedKw p).Nodup := by
  have hall : (trendPairs.map (fun ck => ck.2)).Nodup := by decide
  have hsub : List.Sublist (matchedKw p) (trendPairs.map (fun ck => ck.2)) :=
    (List.filter_sublist trendPairs).map _
  exact hall.sublist hsub

theorem matchedEm_nodup (p : Paper) : (matchedEm p).Nodup := by
  have hall : emerging_keywords.Nodup := by decide
  exact hall.sublist (List.filter_sublist _)

/-! Component extraction: each loop of the paper body touches only its own
counters, and the keyword/emerging loops amount to folding `bump` over the
matched keys. -/

theorem foldl_kwStep_keyword_counts (text : List Char) :
    ∀ (l : List (String × String)) (st : TrendState),
      (l.foldl (kwStep text) st).keyword_counts
        = ((l.filter (fun ck => containsL text ck.2.toList)).map (fun ck => ck.2)).foldl
            bump st.keyword_counts := by
  intro l
  induction l with
  | nil => intro st; rfl
  | cons ck l ih =>
    intro st
    simp only [List.foldl_cons, List.filter_cons]
    by_cases h : containsL text ck.2.toList
    · rw [if_pos h]
      simp only [List.map_cons, List.foldl_cons]
      rw [ih]
      congr 1
      simp only [kwStep]
      rw [if_pos h]
    · rw [if_neg h, ih]
      congr 1
      simp only [kwStep]
      rw [if_neg h]

theorem foldl_kwStep_emerging_counts (text : List Char) :
    ∀ (l : List (String × String)) (st : TrendState),
      (l.foldl (kwStep text) st).emerging_counts = st.emerging_counts := by
  intro l
  induction l with
  | nil => intro st; rfl
  | cons ck l ih =>
    intro st
    simp only [List.foldl_cons]
    rw [ih]
    simp only [kwStep]
    split <;> rfl

theorem foldl_emStep_emerging_counts (text : List Char) :
    ∀ (l : List String) (st : TrendState),
      (l.foldl (emStep text) st).emerging_counts
        = (l.filter (fun kw => containsL text kw.toList)).foldl bump st.emerging_counts := by
  intro l
  induction l with
  | nil => intro st; rfl
  | cons kw l ih =>
    intro st
    simp only [List.foldl_cons, List.filter_cons]
    by_cases h : containsL text kw.toList
    · rw [if_pos h]
      simp only [List.foldl_cons]
      rw [ih]
      congr 1
      simp only [emStep]
      rw [if_pos h]
    · rw [if_neg h, ih]
      congr 1
      simp only [emStep]
      rw [if_neg h]

theorem foldl_emStep_keyword_counts (text : List Char) :
    ∀ (l : List String) (st : TrendState),
      (l.foldl (emStep text) st).keyword_counts = st.keyword_counts := by
  intro l
  induction l with
  | nil => intro st; rfl
  | cons kw l ih =>
    intro st
    simp only [List.foldl_cons]
    rw [ih]
    simp only [emStep]
    split <;> rfl

theorem foldl_instStep_untouched :
    ∀ (l : List String) (st : TrendState),
      (l.foldl instStep st).keyword_counts = st.keyword_counts
      ∧ (l.foldl instStep st).emerging_counts = st.emerging_counts := by
  intro l
  induction l with
  | nil => intro st; exact ⟨rfl, rfl⟩
  | cons a l ih =>
    intro st
    simp only [List.foldl_cons]
    obtain ⟨ih1, ih2⟩ := ih (instStep st a)
    rw [ih1, ih2]
    simp only [instStep]
    refine ⟨?_, ?_⟩ <;> (split <;> rfl)

theorem foldl_arxStep_untouched :
    ∀ (l : List String) (st : TrendState),
      (l.foldl arxStep st).keyword_counts = st.keyword_counts
      ∧ (l.foldl arxStep st).emerging_counts = st.emerging_counts := by
  intro l
  induction l with
  | nil => intro st; exact ⟨rfl, rfl⟩
  | cons a l ih =>
    intro st
    simp only [List.foldl_cons]
    obtain ⟨ih1, ih2⟩ := ih (arxStep st a)
    rw [ih1, ih2]
    exact ⟨rfl, rfl⟩

theorem processPaperTrends_keyword_counts (st : TrendState) (p : Paper) :
    (processPaperTrends st p).keyword_counts = (matchedKw p).foldl bump st.keyword_counts := by
  unfold processPaperTrends matchedKw
  rw [(foldl_arxStep_untouched _ _).1, (foldl_instStep_untouched _ _).1,
    foldl_emStep_keyword_counts, foldl_kwStep_keyword_counts]

theorem processPaperTrends_emerging_counts (st : TrendState) (p : Paper) :
    (processPaperTrends st p).emerging_counts = (matchedEm p).foldl bump st.emerging_counts := by
  unfold processPaperTrends matchedEm
  rw [(foldl_arxStep_untouched _ _).2, (foldl_instStep_untouched _ _).2,
    foldl_emStep_emerging_counts, foldl_kwStep_emerging_counts]

/-- After scanning a batch, every global-keyword count and every emerging
count has grown by at most the number of papers scanned. -/
theorem trendFold_counts_bound :
    ∀ (papers : List Paper) (st : TrendState) (n : Nat),
      (∀ kv ∈ st.keyword_counts, kv.2 ≤ n) →
      (∀ kv ∈ st.emerging_counts, kv.2 ≤ n) →
      (∀ kv ∈ (papers.foldl processPaperTrends st).keyword_counts, kv.2 ≤ n + papers.length)
      ∧ ∀ kv ∈ (papers.foldl processPaperTrends st).emerging_counts, kv.2 ≤ n + papers.length := by
  intro papers
  induction papers with
  | nil =>
    intro st n h1 h2
    constructor
    · intro kv hkv; simpa using h1 kv hkv
    · intro kv hkv; simpa using h2 kv hkv
  | cons p ps ih =>
    intro st n h1 h2
    simp only [List.foldl_cons, List.length_cons]
    have hkc : ∀ kv ∈ (processPaperTrends st p).keyword_counts, kv.2 ≤ n + 1 := by
      rw [processPaperTrends_keyword_counts]
      exact foldl_bump_bound (matchedKw p) st.keyword_counts (matchedKw_nodup p)
        (fun kv hkv => Or.inl (h1 kv hkv))
    have hec : ∀ kv ∈ (processPaperTrends st p).emerging_counts, kv.2 ≤ n + 1 := by
      rw [processPaperTrends_emerging_counts]
      exact foldl_bump_bound (matchedEm p) st.emerging_counts (matchedEm_nodup p)
        (fun kv hkv => Or.inl (h2 kv hkv))
    obtain ⟨ih1, ih2⟩ := ih (processPaperTrends st p) (n + 1) hkc hec
    constructor
    · intro kv hkv; have := ih1 kv hkv; omega
    · intro kv hkv; have := ih2 kv hkv; omega

/-- Claim C9: every count shown in `top_keywords` and in `emerging_tech` is
at most `total_papers` — a keyword is counted at most once per paper (all
tabled keywords are distinct), so no count can exceed the batch size. -/
theorem C9_topk_counts_le_total (papers : List Paper) :
    (∀ kv ∈ (extract_trends papers).top_keywords, kv.2 ≤ (extract_trends papers).total_papers)
    ∧ ∀ kv ∈ (extract_trends papers).emerging_tech, kv.2 ≤ (extract_trends papers).total_papers := by
  have h := trendFold_counts_bound papers {} 0 (by intro kv hkv; cases hkv) (by intro kv hkv; cases hkv)
  constructor
  · intro kv hkv
    have hmem : kv ∈ (trendFold papers).keyword_counts :=
      (sortDesc_perm (fun e : String × Nat => e.2) _).mem_iff.mp
        ((List.take_sublist _ _).subset hkv)
    have := h.1 kv hmem
    simpa [extract_trends] using this
  · intro kv hkv
    have hmem : kv ∈ (trendFold papers).emerging_counts :=
      (sortDesc_perm (fun e : String × Nat => e.2) _).mem_iff.mp
        ((List.take_sublist _ _).subset hkv)
    have := h.2 kv hmem
    simpa [extract_trends] using this

/-- A paper matching the trend keyword `llm`, for the C9 witness. -/
def paperLlm : Paper := { title := "llm", summary := "q" }

/-- Witness for C9 at a concrete one-paper batch. -/
theorem C9_topk_counts_le_total_witness :
    (("llm", 1) ∈ (extract_trends [paperLlm]).top_keywords)
    ∧ 1 ≤ (extract_trends [paperLlm]).total_papers :=
  ⟨by decide, (C9_topk_counts_le_total [paperLlm]).1 ("llm", 1) (by decide)⟩

/-! ### Claim C4: monotonicity of appending a high-tier keyword -/

/-- The paper with a phrase appended to its title. -/
def appendTitle (p : Paper) (w : String) : Paper := { p with title := p.title ++ w }

/-- All keyword lists that contribute positively to the score. -/
def positive_keywords : List String :=
  high_priority_keywords ++ medium_priority_keywords ++ basic_keywords ++ practical_keywords

/-- The phrase exhibited by the C4 counterexample. -/
def kwCodeReview : String := "code review"

/-- The paper of the C4 counterexample: its search text is
`a code generation tool`, scoring 4.5 (high `code generation` 3.0,
practical `tool` 1.5). -/
def paperC4 : Paper := { title := "a code", summary := "generation tool" }

/-- The phrase used by the C4 amended-claim witness. -/
def kwApi : String := "api"

/-- Claim C4 counterexample: appending the high-tier phrase `code review`
(not previously present) to `paperC4`'s title lowers the score from 4.5 to
3.5: the appended text destroys the `code generation` match that previously
spanned the title–abstract junction (-3.0) and newly matches the exclusion
phrase `review` (-2.0), while gaining only 3.0 + 1.0 for the new keyword. -/
theorem C4_counterexample :
    kwCodeReview ∈ high_priority_keywords
    ∧ containsL (textChars paperC4) kwCodeReview.toList = false
    ∧ rawScore (appendTitle paperC4 kwCodeReview) 0 < rawScore paperC4 0 := by
  decide

theorem toList_append (s t : String) : (s ++ t).toList = s.toList ++ t.toList :=
  String.data_append s t

theorem high_keywords_lowercase :
    ∀ w ∈ high_priority_keywords, lowerChars w.toList = w.toList := by decide

theorem titleChars_append (p : Paper) (w : String) :
    titleChars (appendTitle p w) = titleChars p ++ lowerChars w.toList := by
  unfold titleChars appendTitle lowerChars
  rw [show ({ p with title := p.title ++ w } : Paper).title = p.title ++ w from rfl]
  rw [toList_append]
  exact List.map_append _ _ _

theorem contains_titleChars_mono (p : Paper) (w : String) (k : List Char)
    (h : containsL (titleChars p) k = true) :
    containsL (titleChars (appendTitle p w)) k = true := by
  rw [titleChars_append]
  exact containsL_of_infix (infix_append_left _ (containsL_iff.mp h))

theorem mem_positive_of_high {k : String} (h : k ∈ high_priority_keywords) :
    k ∈ positive_keywords := by
  simp only [positive_keywords, List.mem_append]
  tauto

theorem mem_positive_of_medium {k : String} (h : k ∈ medium_priority_keywords) :
    k ∈ positive_keywords := by
  simp only [positive_keywords, List.mem_append]
  tauto

theorem mem_positive_of_basic {k : String} (h : k ∈ basic_keywords) :
    k ∈ positive_keywords := by
  simp only [positive_keywords, List.mem_append]
  tauto

theorem mem_positive_of_practical {k : String} (h : k ∈ practical_keywords) :
    k ∈ positive_keywords := by
  simp only [positive_keywords, List.mem_append]
  tauto

/-- One tier term never shrinks when presence in text and title is
preserved. -/
theorem tier_term_mono (text text' title title' : List Char) (base tb : Int)
    (hbase : 0 ≤ base) (htb : 0 ≤ tb) (k : String)
    (h1 : containsL text k.toList = true → containsL text' k.toList = true)
    (h2 : containsL title k.toList = true → containsL title' k.toList = true) :
    (if containsL text k.toList then base + (if containsL title k.toList then tb else 0) else 0)
      ≤ (if containsL text' k.toList then base + (if containsL title' k.toList then tb else 0) else 0) := by
  by_cases hx : containsL text k.toList
  · rw [if_pos hx, if_pos (h1 hx)]
    by_cases ht : containsL title k.toList
    · rw [if_pos ht, if_pos (h2 ht)]
    · rw [if_neg ht]
      split <;> omega
  · rw [if_neg hx]
    split
    · split <;> omega
    · omega

theorem keywordTierScore_mono (text text' title title' : List Char) (kws : List String)
    (base tb : Int) (hbase : 0 ≤ base) (htb : 0 ≤ tb)
    (hpres : ∀ k ∈ kws, containsL text k.toList = true → containsL text' k.toList = true)
    (htit : ∀ k ∈ kws, containsL title k.toList = true → containsL title' k.toList = true) :
    keywordTierScore text title kws base tb ≤ keywordTierScore text' title' kws base tb := by
  unfold keywordTierScore
  apply List.sum_le_sum
  intro k hk
  exact tier_term_mono text text' title title' base tb hbase htb k (hpres k hk) (htit k hk)

/-- A tier containing a newly matching phrase `w` (absent before, present in
the new text and title) gains at least `base + tb` beyond preservation. -/
theorem keywordTierScore_gain (text text' title title' : List Char) (kws : List String)
    (base tb : Int) (w : String) (hw : w ∈ kws)
    (hbase : 0 ≤ base) (htb : 0 ≤ tb)
    (hpres : ∀ k ∈ kws, containsL text k.toList = true → containsL text' k.toList = true)
    (htit : ∀ k ∈ kws, containsL title k.toList = true → containsL title' k.toList = true)
    (hwold : containsL text w.toList = false)
    (hwnew : containsL text' w.toList = true)
    (hwtitle : containsL title' w.toList = true) :
    keywordTierScore text title kws base tb + (base + tb)
      ≤ keywordTierScore text' title' kws base tb := by
  obtain ⟨s, t, rfl⟩ := List.append_of_mem hw
  unfold keywordTierScore
  rw [List.map_append, List.map_cons, List.sum_append, List.sum_cons,
      List.map_append, List.map_cons, List.sum_append, List.sum_cons]
  have hs : ((s.map (fun k => if containsL text k.toList then base + (if containsL title k.toList then tb else 0) else 0)).sum
      ≤ (s.map (fun k => if containsL text' k.toList then base + (if containsL title' k.toList then tb else 0) else 0)).sum) := by
    apply List.sum_le_sum
    intro k hk
    have hk' : k ∈ s ++ w :: t := List.mem_append.mpr (Or.inl hk)
    exact tier_term_mono text text' title title' base tb hbase htb k (hpres k hk') (htit k hk')
  have ht : ((t.map (fun k => if containsL text k.toList then base + (if containsL title k.toList then tb else 0) else 0)).sum
      ≤ (t.map (fun k => if containsL text' k.toList then base + (if containsL title' k.toList then tb else 0) else 0)).sum) := by
    apply List.sum_le_sum
    intro k hk
    have hk' : k ∈ s ++ w :: t := List.mem_append.mpr (Or.inr (List.mem_cons_of_mem _ hk))
    exact tier_term_mono text text' title title' base tb hbase htb k (hpres k hk') (htit k hk')
  have hw' : (if containsL text' w.toList then base + (if containsL title' w.toList then tb else 0) else 0) = base + tb := by
    rw [if_pos hwnew, if_pos hwtitle]
  have hw0 : (if containsL text w.toList then base + (if containsL title w.toList then tb else 0) else 0) = 0 := by
    rw [if_neg (by simp only [Bool.not_eq_true]; exact hwold)]
  rw [hw', hw0]
  omega

theorem flatKeywordScore_mono_pos (text text' : List Char) (kws : List String) (w : Int)
    (hw : 0 ≤ w)
    (hpres : ∀ k ∈ kws, containsL text k.toList = true → containsL text' k.toList = true) :
    flatKeywordScore text kws w ≤ flatKeywordScore text' kws w := by
  unfold flatKeywordScore
  apply List.sum_le_sum
  intro k hk
  by_cases hx : containsL text k.toList
  · rw [if_pos hx, if_pos (hpres k hk hx)]
  · rw [if_neg hx]
    split <;> omega

theorem flatKeywordScore_mono_neg (text text' : List Char) (kws : List String) (w : Int)
    (hw : w ≤ 0)
    (hrev : ∀ k ∈ kws, containsL text' k.toList = true → containsL text k.toList = true) :
    flatKeywordScore text kws w ≤ flatKeywordScore text' kws w := by
  unfold flatKeywordScore
  apply List.sum_le_sum
  intro k hk
  by_cases hx : containsL text' k.toList
  · rw [if_pos (hrev k hk hx), if_pos hx]
  · rw [if_neg hx]
    split <;> omega

/-- Claim C4 amended: appending a high-tier keyword phrase `w` that is not
yet in the search text raises the score by at least its weight plus title
bonus (3.0 + 1.0), provided the concatenation does not destroy any existing
positive keyword match (appending can break a match spanning the
title–abstract junction) and does not introduce a new exclusion-phrase match
— the two effects the counterexample exploits. -/
theorem C4_amended_monotone (p : Paper) (w : String) (now : Int)
    (hw : w ∈ high_priority_keywords)
    (hnew : containsL (textChars p) w.toList = false)
    (hpres : ∀ k ∈ positive_keywords, containsL (textChars p) k.toList = true →
        containsL (textChars (appendTitle p w)) k.toList = true)
    (hexcl : ∀ e ∈ exclusion_keywords, containsL (textChars (appendTitle p w)) e.toList = true →
        containsL (textChars p) e.toList = true) :
    rawScore p now + 400 ≤ rawScore (appendTitle p w) now := by
  have hlow : lowerChars w.toList = w.toList := high_keywords_lowercase w hw
  have hwtitle : containsL (titleChars (appendTitle p w)) w.toList = true := by
    rw [titleChars_append]
    have hsuf : w.toList <:+: titleChars p ++ lowerChars w.toList := by
      rw [hlow]
      exact (List.suffix_append _ _).isInfix
    exact containsL_of_infix hsuf
  have hwnew : containsL (textChars (appendTitle p w)) w.toList = true := by
    unfold textChars
    exact containsL_of_infix (infix_append_left _ (containsL_iff.mp hwtitle))
  have hhigh : keywordTierScore (textChars p) (titleChars p) high_priority_keywords 300 100 + 400
      ≤ keywordTierScore (textChars (appendTitle p w)) (titleChars (appendTitle p w))
          high_priority_keywords 300 100 := by
    have := keywordTierScore_gain (textChars p) (textChars (appendTitle p w))
      (titleChars p) (titleChars (appendTitle p w)) high_priority_keywords 300 100 w hw
      (by omega) (by omega)
      (fun k hk => hpres k (mem_positive_of_high hk))
      (fun k _ h => contains_titleChars_mono p w _ h)
      hnew hwnew hwtitle
    omega
  have hmed : keywordTierScore (textChars p) (titleChars p) medium_priority_keywords 200 50
      ≤ keywordTierScore (textChars (appendTitle p w)) (titleChars (appendTitle p w))
          medium_priority_keywords 200 50 :=
    keywordTierScore_mono _ _ _ _ _ _ _ (by omega) (by omega)
      (fun k hk => hpres k (mem_positive_of_medium hk))
      (fun k _ h => contains_titleChars_mono p w _ h)
  have hbasic : flatKeywordScore (textChars p) basic_keywords 100
      ≤ flatKeywordScore (textChars (appendTitle p w)) basic_keywords 100 :=
    flatKeywordScore_mono_pos _ _ _ _ (by omega)
      (fun k hk => hpres k (mem_positive_of_basic hk))
  have hexc : flatKeywordScore (textChars p) exclusion_keywords (-200)
      ≤ flatKeywordScore (textChars (appendTitle p w)) exclusion_keywords (-200) :=
    flatKeywordScore_mono_neg _ _ _ _ (by omega) hexcl
  have hprac : flatKeywordScore (textChars p) practical_keywords 150
      ≤ flatKeywordScore (textChars (appendTitle p w)) practical_keywords 150 :=
    flatKeywordScore_mono_pos _ _ _ _ (by omega)
      (fun k hk => hpres k (mem_positive_of_practical hk))
  have haff : affiliationScore (authorsChars (appendTitle p w)) = affiliationScore (authorsChars p) := rfl
  have hcat : categoryScore (appendTitle p w).categories = categoryScore p.categories := rfl
  have hauth : authorCountScore (appendTitle p w).authors.length
      = authorCountScore p.authors.length := rfl
  have hrec : recencyScore now (appendTitle p w).published = recencyScore now p.published := rfl
  unfold rawScore
  rw [haff, hcat, hauth, hrec]
  omega

/-- Witness for the amended C4 theorem: appending `api` to the keyword-free
`paperLow` preserves all (zero) matches and creates no exclusion match, and
the score rises by the promised 4.0. -/
theorem C4_amended_monotone_witness :
    (kwApi ∈ high_priority_keywords
      ∧ containsL (textChars paperLow) kwApi.toList = false
      ∧ (∀ k ∈ positive_keywords, containsL (textChars paperLow) k.toList = true →
            containsL (textChars (appendTitle paperLow kwApi)) k.toList = true)
      ∧ (∀ e ∈ exclusion_keywords,
            containsL (textChars (appendTitle paperLow kwApi)) e.toList = true →
            containsL (textChars paperLow) e.toList = true))
    ∧ rawScore paperLow 0 + 400 ≤ rawScore (appendTitle paperLow kwApi) 0 :=
  ⟨by decide, C4_amended_monotone paperLow kwApi 0 (by decide) (by decide) (by decide) (by decide)⟩

end PaperDaily
